import Mathlib

/-!
Verification of `deadpool-amqprs`, a deadpool-based connection pool for the
amqprs AMQP client.

The first part embeds `src/config.rs` (the repository's source file): the
`RecyclingMethod` enumeration, the `Config` structure with its constructors,
`builder`, `create_pool`, the manual `Debug` implementation, and the
`ConfigError = Infallible` alias.

The second part models the pool's lifecycle and recycling engine from the
specification (the corresponding `lib.rs` is not part of the sources on hand):
handles, the recycling policy, and a pool state machine with
acquire/release/close transitions.
-/

namespace DeadpoolAmqprs

/-! ## Embedding of `src/config.rs` -/

/-- Possible methods of how a connection is recycled (src/config.rs, enum
`RecyclingMethod`): `Fast` only runs `Connection::is_open()`; `Verified`
additionally executes a test query. -/
inductive RecyclingMethod where
  | Fast
  | Verified
deriving DecidableEq, Repr

/-- The `Default` impl for `RecyclingMethod` returns `Fast`
(src/config.rs, `impl Default for RecyclingMethod`). -/
def RecyclingMethod.default : RecyclingMethod := .Fast

/-- Connection arguments passed to `Connection::open`. The amqprs type is an
external collaborator; we model the payload that matters for the claims:
address and credentials. -/
structure OpenConnectionArguments where
  host : String
  port : Nat
  username : String
  password : String
deriving DecidableEq, Repr

/-- The deadpool `PoolConfig` (external collaborator): capacity bound plus an
optional acquire timeout, immutable after pool creation. -/
structure PoolConfig where
  max_size : Nat
  timeout : Option Nat
deriving DecidableEq, Repr

/-- The deadpool default `PoolConfig`: a fixed positive capacity, no timeouts
configured. -/
def PoolConfig.default : PoolConfig := { max_size := 16, timeout := none }

/-- The deadpool `Runtime` selection. Only `Tokio1` is ever used by this
crate. -/
inductive Runtime where
  | Tokio1
deriving DecidableEq, Repr

/-- Configuration object (src/config.rs, struct `Config`). -/
structure Config where
  con_args : OpenConnectionArguments
  pool_config : Option PoolConfig
  recycling_method : RecyclingMethod

/-- `Config::new` (src/config.rs): stores the given arguments, defaulting the
recycling method to `Fast` when `None` is passed. -/
def Config.new (con_args : OpenConnectionArguments) (pool_config : Option PoolConfig)
    (recycling_method : Option RecyclingMethod) : Config :=
  { con_args := con_args
    pool_config := pool_config
    recycling_method :=
      match recycling_method with
      | some method => method
      | none => RecyclingMethod.Fast }

/-- `Config::new_with_con_args` (src/config.rs): only connection arguments,
no pool config, recycling method `Fast`. -/
def Config.new_with_con_args (con_args : OpenConnectionArguments) : Config :=
  { con_args := con_args
    pool_config := none
    recycling_method := RecyclingMethod.Fast }

/-- The deadpool manager built by this crate: it owns the connection
arguments and the recycling method. -/
structure Manager where
  con_args : OpenConnectionArguments
  recycling_method : RecyclingMethod

/-- `Manager::new`: stores both fields as given. -/
def Manager.new (con_args : OpenConnectionArguments)
    (recycling_method : RecyclingMethod) : Manager :=
  { con_args := con_args, recycling_method := recycling_method }

/-- The deadpool `PoolBuilder` (external collaborator): a manager, a pool
config, and an optional runtime selection. -/
structure PoolBuilder where
  manager : Manager
  config : PoolConfig
  runtime : Option Runtime

/-- A built pool, as far as configuration is concerned. -/
structure Pool where
  manager : Manager
  config : PoolConfig
  runtime : Runtime

/-- `Pool::builder(manager)`: a fresh builder with default config and no
runtime selected. -/
def Pool.mkBuilder (manager : Manager) : PoolBuilder :=
  { manager := manager, config := PoolConfig.default, runtime := none }

/-- The builder's `.config(...)` setter. -/
def PoolBuilder.set_config (b : PoolBuilder) (c : PoolConfig) : PoolBuilder :=
  { b with config := c }

/-- The builder's `.runtime(...)` setter. -/
def PoolBuilder.set_runtime (b : PoolBuilder) (r : Runtime) : PoolBuilder :=
  { b with runtime := some r }

/-- The deadpool build error: raised only when a timeout is configured but no
runtime was selected. -/
inductive BuildError where
  | NoRuntimeSpecified
deriving DecidableEq, Repr

/-- `PoolBuilder::build` (deadpool): fails with `NoRuntimeSpecified` when a
timeout is configured without a runtime, otherwise yields the pool. -/
def PoolBuilder.build (b : PoolBuilder) : Except BuildError Pool :=
  match b.runtime with
  | some r => .ok { manager := b.manager, config := b.config, runtime := r }
  | none =>
    match b.config.timeout with
    | some _ => .error .NoRuntimeSpecified
    | none => .ok { manager := b.manager, config := b.config, runtime := Runtime.Tokio1 }

/-- `Config::builder` (src/config.rs): builds a manager from the stored
connection arguments and recycling method, applies the stored pool config
(defaulting when absent), and always selects the `Tokio1` runtime. -/
def Config.builder (c : Config) : PoolBuilder :=
  ((Pool.mkBuilder (Manager.new c.con_args c.recycling_method)).set_config
      (c.pool_config.getD PoolConfig.default)).set_runtime Runtime.Tokio1

/-- `Config::create_pool` (src/config.rs): `self.builder().build().expect(..)`.
The `expect` panic path is modelled as `none`. -/
def Config.create_pool (c : Config) : Option Pool :=
  (c.builder).build.toOption

/-- The manual `Debug` impl for `Config` (src/config.rs): prints only the
`pool_config` field and finishes non-exhaustively, hiding `con_args` (address
and credentials) and `recycling_method`. -/
def Config.debugFmt (c : Config) : String :=
  "Config \x7b pool_config: " ++ reprStr c.pool_config ++ ", .. \x7d"

/-- `ConfigError = Infallible` (src/config.rs): the uninhabited type. -/
def ConfigError : Type := Empty

/-! ## Pool lifecycle and recycling engine, modelled from the spec -/

/-- Modelled from the spec: a `ConnectionHandle` wraps one live connection
(identified here by an opaque numeric id) plus bookkeeping: creation time,
last-checked time, and the caller-reported `poisoned` flag (spec section 3). -/
structure ConnectionHandle where
  id : Nat
  created_at : Nat
  last_checked_at : Nat
  poisoned : Bool
deriving DecidableEq, Repr

/-- Modelled from the spec: the `ConnectionProvider` collaborator interface
(spec section 4.4): `is_open` is the structural liveness check, `probe` the
Verified-mode round trip (`false` means probe failure or timeout), and
`create_ok` says whether creating a fresh connection currently succeeds. -/
structure ConnectionProvider where
  is_open : Nat → Bool
  probe : Nat → Bool
  create_ok : Bool

/-- Modelled from the spec: the recycling decision (spec section 4.1). -/
inductive Decision where
  | Keep
  | Discard
deriving DecidableEq, Repr

/-- Modelled from the spec: the outcome of one policy evaluation, recording
which checks actually ran so that the "poisoned handles skip all checks"
clause is observable. -/
structure EvalTrace where
  decision : Decision
  liveness_checked : Bool
  probe_run : Bool
deriving DecidableEq, Repr

/-- Modelled from the spec: `RecyclingPolicy.evaluate(handle, method)`
(spec section 4.1). Poisoned handles are discarded without any check; `Fast`
discards exactly when `is_open` reports closed; `Verified` runs the `Fast`
check first and then the probe, discarding on probe failure; every `Keep`
updates `last_checked_at`. -/
def RecyclingPolicy.evaluate (p : ConnectionProvider) (h : ConnectionHandle)
    (m : RecyclingMethod) (now : Nat) : EvalTrace × ConnectionHandle :=
  if h.poisoned then
    (⟨.Discard, false, false⟩, h)
  else
    match m with
    | .Fast =>
      if p.is_open h.id then
        (⟨.Keep, true, false⟩, { h with last_checked_at := now })
      else
        (⟨.Discard, true, false⟩, h)
    | .Verified =>
      if p.is_open h.id then
        if p.probe h.id then
          (⟨.Keep, true, true⟩, { h with last_checked_at := now })
        else
          (⟨.Discard, true, true⟩, h)
      else
        (⟨.Discard, true, false⟩, h)

/-- Modelled from the spec: errors surfaced by `acquire`
(spec section 7): timeout at capacity, provider creation failure, pool
closed. -/
inductive AcquireError where
  | Timeout
  | ProviderError
  | PoolClosed
deriving DecidableEq, Repr

/-- Modelled from the spec: the `PoolCore` shared state (spec section 4.2):
idle set (front = most recently released), in-use handles, capacity bound,
the configured recycling method, the closed flag, a fresh-id counter, and a
log of connection ids that were closed (discarded or drained). -/
structure PoolState where
  idle : List ConnectionHandle
  in_use : List ConnectionHandle
  max_size : Nat
  recycling_method : RecyclingMethod
  closed : Bool
  next_id : Nat
  closed_conns : List Nat
deriving DecidableEq, Repr

/-- Modelled from the spec: a freshly constructed, empty pool. -/
def PoolState.init (max_size : Nat) (m : RecyclingMethod) : PoolState :=
  { idle := []
    in_use := []
    max_size := max_size
    recycling_method := m
    closed := false
    next_id := 0
    closed_conns := [] }

/-- Modelled from the spec: `acquire` (spec section 4.2). Fails with
`PoolClosed` after shutdown; pops the most recently released idle handle
without re-validating; otherwise creates a fresh handle when below capacity
(surfacing `ProviderError` on creation failure without consuming the slot);
at capacity with an empty idle set the caller times out. -/
def PoolState.acquire (p : ConnectionProvider) (s : PoolState) (now : Nat) :
    Except AcquireError (ConnectionHandle × PoolState) :=
  if s.closed then
    .error .PoolClosed
  else
    match s.idle with
    | h :: rest => .ok (h, { s with idle := rest, in_use := h :: s.in_use })
    | [] =>
      if s.idle.length + s.in_use.length < s.max_size then
        if p.create_ok then
          let h : ConnectionHandle :=
            { id := s.next_id, created_at := now, last_checked_at := now, poisoned := false }
          .ok (h, { s with in_use := h :: s.in_use, next_id := s.next_id + 1 })
        else
          .error .ProviderError
      else
        .error .Timeout

/-- Modelled from the spec: `release` of the `idx`-th in-use handle
(spec section 4.2): marks `poisoned` from the caller-reported error, removes
the lease, and either pushes the handle back to the idle front on `Keep` or
closes it on `Discard`; after `close()`, outstanding leases are discarded on
release regardless of policy. Returns `none` for an invalid lease index. -/
def PoolState.release (p : ConnectionProvider) (s : PoolState) (idx : Nat)
    (caller_reported_error : Bool) (now : Nat) : Option (PoolState × Decision) :=
  match s.in_use.get? idx with
  | none => none
  | some h0 =>
    let h := { h0 with poisoned := caller_reported_error }
    let remaining := s.in_use.eraseIdx idx
    if s.closed then
      some ({ s with in_use := remaining, closed_conns := s.closed_conns ++ [h.id] }, .Discard)
    else
      match RecyclingPolicy.evaluate p h s.recycling_method now with
      | (t, h2) =>
        match t.decision with
        | .Keep =>
          some ({ s with in_use := remaining, idle := h2 :: s.idle }, .Keep)
        | .Discard =>
          some ({ s with in_use := remaining, closed_conns := s.closed_conns ++ [h.id] }, .Discard)

/-- Modelled from the spec: `close()` (spec section 4.2): drains and closes
all idle handles, and marks the pool closed so that further acquires fail
and outstanding leases are discarded on release. Returns the list of handles
it closed. -/
def PoolState.close (s : PoolState) : PoolState × List ConnectionHandle :=
  ({ s with
      idle := []
      closed := true
      closed_conns := s.closed_conns ++ s.idle.map (fun h => h.id) }, s.idle)

/-- Modelled from the spec: one externally observable pool operation. -/
inductive PoolOp where
  | acquire (now : Nat)
  | release (idx : Nat) (caller_reported_error : Bool) (now : Nat)
  | close
deriving DecidableEq, Repr

/-- Modelled from the spec: the state transition of one operation; a failing
acquire or an invalid release leaves the state unchanged. -/
def PoolState.step (p : ConnectionProvider) (s : PoolState) : PoolOp → PoolState
  | .acquire now =>
    match s.acquire p now with
    | .ok (_, s2) => s2
    | .error _ => s
  | .release idx err now =>
    match s.release p idx err now with
    | some (s2, _) => s2
    | none => s
  | .close => (s.close).1

/-- Modelled from the spec: running a sequence of operations. -/
def PoolState.run (p : ConnectionProvider) (s : PoolState) : List PoolOp → PoolState
  | [] => s
  | op :: ops => PoolState.run p (s.step p op) ops

/-- The handles currently owned by the pool or by outstanding leases. -/
def PoolState.allHandles (s : PoolState) : List ConnectionHandle :=
  s.idle ++ s.in_use

/-- Total number of handles: idle plus in use. -/
def PoolState.total (s : PoolState) : Nat :=
  s.idle.length + s.in_use.length

/-- Id-hygiene invariant: every owned handle's id is below the fresh-id
counter, and owned ids are pairwise distinct. -/
def PoolState.goodIds (s : PoolState) : Prop :=
  (∀ h ∈ s.allHandles, h.id < s.next_id) ∧ (s.allHandles.map (fun h => h.id)).Nodup

/-- Sample connection arguments used in concrete instantiations. -/
def demoArgs : OpenConnectionArguments :=
  { host := "localhost", port := 5672, username := "guest", password := "guest" }

/-- Alternative sample connection arguments with different credentials. -/
def demoArgs2 : OpenConnectionArguments :=
  { host := "other-host", port := 5673, username := "bob", password := "hunter2" }

/-- A healthy, non-poisoned sample handle. -/
def demoHandle : ConnectionHandle :=
  { id := 0, created_at := 0, last_checked_at := 0, poisoned := false }

/-- A provider for which every connection looks open locally but every probe
fails: the "zombie connection" scenario. -/
def zombieProvider : ConnectionProvider :=
  { is_open := fun _ => true, probe := fun _ => false, create_ok := true }

/-- A fully healthy provider: connections open, probes succeed. -/
def probeOkProvider : ConnectionProvider :=
  { is_open := fun _ => true, probe := fun _ => true, create_ok := true }

/-- A sample handle whose caller reported an operational error. -/
def demoPoisonHandle : ConnectionHandle :=
  { id := 0, created_at := 0, last_checked_at := 0, poisoned := true }

/-- A pool with one outstanding lease (a poisoned handle) and room for one
more connection. -/
def demoPoisonPool : PoolState :=
  { idle := []
    in_use := [demoPoisonHandle]
    max_size := 2
    recycling_method := RecyclingMethod.Verified
    closed := false
    next_id := 1
    closed_conns := [] }

/-- A pool with one outstanding lease holding a healthy handle. -/
def demoLeasePool : PoolState :=
  { idle := []
    in_use := [demoHandle]
    max_size := 2
    recycling_method := RecyclingMethod.Verified
    closed := false
    next_id := 1
    closed_conns := [] }

/-- A pool with one idle handle and no outstanding leases. -/
def demoIdlePool : PoolState :=
  { idle := [demoHandle]
    in_use := []
    max_size := 2
    recycling_method := RecyclingMethod.Fast
    closed := false
    next_id := 1
    closed_conns := [] }

/-! ## Helper lemmas about the pool model -/

/-- Removing the element at a valid index is, up to permutation, the same as
taking that element off the front. -/
theorem perm_get_cons_eraseIdx {α : Type _} (l : List α) (i : Nat) (h : i < l.length) :
    l.Perm (l.get ⟨i, h⟩ :: l.eraseIdx i) := by
  have hd : l.drop i = l.get ⟨i, h⟩ :: l.drop (i + 1) := by
    rw [List.get_eq_getElem]
    exact (List.getElem_cons_drop l i h).symm
  rw [List.eraseIdx_eq_take_drop_succ]
  conv_lhs => rw [← List.take_append_drop i l]
  rw [hd]
  exact List.perm_middle

/-- The total count is the length of the combined handle list. -/
theorem total_eq_length (s : PoolState) : s.total = s.allHandles.length := by
  simp [PoolState.total, PoolState.allHandles]

/-- Policy evaluation never changes a handle's identity. -/
theorem evaluate_id_eq (p : ConnectionProvider) (h : ConnectionHandle)
    (m : RecyclingMethod) (now : Nat) :
    ((RecyclingPolicy.evaluate p h m now).2).id = h.id := by
  cases m <;> simp only [RecyclingPolicy.evaluate] <;> split_ifs <;> rfl

/-- Evaluating a poisoned handle yields `Discard` with no checks run and the
handle untouched. -/
theorem evaluate_poisoned_eq (p : ConnectionProvider) (h : ConnectionHandle)
    (m : RecyclingMethod) (now : Nat) (hp : h.poisoned = true) :
    RecyclingPolicy.evaluate p h m now = (⟨Decision.Discard, false, false⟩, h) := by
  cases m <;> simp [RecyclingPolicy.evaluate, hp]

/-- Acquire on a closed pool always fails with `PoolClosed`. -/
theorem acquire_closed_eq (p : ConnectionProvider) (s : PoolState) (now : Nat)
    (hc : s.closed = true) : s.acquire p now = Except.error AcquireError.PoolClosed := by
  simp [PoolState.acquire, hc]

/-- Characterisation of a successful acquire: configuration fields are
untouched, and the returned handle either comes from the idle set (handles
permuted, counter unchanged) or is fresh (id = the counter, appended under
the capacity guard). -/
theorem acquire_ok_spec (p : ConnectionProvider) (s : PoolState) (now : Nat)
    (h : ConnectionHandle) (t : PoolState)
    (hok : s.acquire p now = Except.ok (h, t)) :
    t.max_size = s.max_size
    ∧ t.recycling_method = s.recycling_method
    ∧ t.closed = s.closed
    ∧ t.closed_conns = s.closed_conns
    ∧ ((h ∈ s.allHandles ∧ t.allHandles.Perm s.allHandles ∧ t.next_id = s.next_id)
        ∨ (h.id = s.next_id ∧ t.allHandles = h :: s.allHandles
            ∧ t.next_id = s.next_id + 1 ∧ s.total < s.max_size)) := by
  unfold PoolState.acquire at hok
  split at hok
  · exact absurd hok (by simp)
  · split at hok
    next h0 rest hidle =>
      simp only [Except.ok.injEq, Prod.mk.injEq] at hok
      obtain ⟨rfl, rfl⟩ := hok
      refine ⟨rfl, rfl, rfl, rfl, Or.inl ⟨?_, ?_, rfl⟩⟩
      · simp [PoolState.allHandles, hidle]
      · simp only [PoolState.allHandles, hidle, List.cons_append]
        exact List.perm_middle
    next hidle =>
      split at hok
      next hcap =>
        split at hok
        · simp only [Except.ok.injEq, Prod.mk.injEq] at hok
          obtain ⟨rfl, rfl⟩ := hok
          refine ⟨rfl, rfl, rfl, rfl, Or.inr ⟨rfl, ?_, rfl, ?_⟩⟩
          · simp [PoolState.allHandles, hidle]
          · simpa [PoolState.total] using hcap
        · exact absurd hok (by simp)
      next hcap => exact absurd hok (by simp)

/-- Characterisation of a successful release: the lease index was valid,
configuration fields are untouched, and the handle is either closed (its id
is logged) or pushed back to the idle front with its identity intact. -/
theorem release_some_spec (p : ConnectionProvider) (s : PoolState) (idx : Nat)
    (err : Bool) (now : Nat) (s2 : PoolState) (d : Decision)
    (hr : s.release p idx err now = some (s2, d)) :
    ∃ hidx : idx < s.in_use.length,
      s2.max_size = s.max_size
      ∧ s2.recycling_method = s.recycling_method
      ∧ s2.closed = s.closed
      ∧ s2.next_id = s.next_id
      ∧ ((d = Decision.Discard
            ∧ s2.allHandles = s.idle ++ s.in_use.eraseIdx idx
            ∧ s2.closed_conns = s.closed_conns ++ [(s.in_use.get ⟨idx, hidx⟩).id])
          ∨ (d = Decision.Keep
            ∧ (∃ h2 : ConnectionHandle, h2.id = (s.in_use.get ⟨idx, hidx⟩).id
                ∧ s2.allHandles = h2 :: (s.idle ++ s.in_use.eraseIdx idx))
            ∧ s2.closed_conns = s.closed_conns)) := by
  unfold PoolState.release at hr
  simp only [] at hr
  split at hr
  · exact absurd hr (by simp)
  next h0 heq =>
    obtain ⟨hidx, hget⟩ := List.get?_eq_some.mp heq
    refine ⟨hidx, ?_⟩
    split at hr
    · simp only [Option.some.injEq, Prod.mk.injEq] at hr
      obtain ⟨rfl, rfl⟩ := hr
      refine ⟨rfl, rfl, rfl, rfl, Or.inl ⟨rfl, rfl, ?_⟩⟩
      rw [hget]
    · split at hr
      · simp only [Option.some.injEq, Prod.mk.injEq] at hr
        obtain ⟨rfl, rfl⟩ := hr
        refine ⟨rfl, rfl, rfl, rfl, Or.inr ⟨rfl,
          ⟨(RecyclingPolicy.evaluate p { h0 with poisoned := err }
              s.recycling_method now).2, ?_, ?_⟩, rfl⟩⟩
        · rw [hget]
          exact evaluate_id_eq p { h0 with poisoned := err } s.recycling_method now
        · simp [PoolState.allHandles]
      · simp only [Option.some.injEq, Prod.mk.injEq] at hr
        obtain ⟨rfl, rfl⟩ := hr
        refine ⟨rfl, rfl, rfl, rfl, Or.inl ⟨rfl, rfl, ?_⟩⟩
        rw [hget]

/-- One step never pushes idle+in-use beyond the capacity bound, and never
changes the bound itself. -/
theorem step_cap (p : ConnectionProvider) (s : PoolState) (op : PoolOp)
    (hle : s.total ≤ s.max_size) :
    (s.step p op).total ≤ (s.step p op).max_size ∧ (s.step p op).max_size = s.max_size := by
  cases op with
  | acquire now =>
    cases hacq : s.acquire p now with
    | error e =>
      simp only [PoolState.step, hacq]
      exact ⟨hle, trivial⟩
    | ok pr =>
      obtain ⟨h, t⟩ := pr
      simp only [PoolState.step, hacq]
      obtain ⟨hmax, -, -, -, hcase⟩ := acquire_ok_spec p s now h t hacq
      rcases hcase with ⟨-, hperm, -⟩ | ⟨-, hall, -, hlt⟩
      · refine ⟨?_, hmax⟩
        rw [total_eq_length, hperm.length_eq, ← total_eq_length, hmax]
        exact hle
      · refine ⟨?_, hmax⟩
        have ht : t.total = s.total + 1 := by
          rw [total_eq_length, hall, List.length_cons, ← total_eq_length]
        rw [ht, hmax]
        omega
  | release idx err now =>
    cases hr : s.release p idx err now with
    | none =>
      simp only [PoolState.step, hr]
      exact ⟨hle, trivial⟩
    | some pr =>
      obtain ⟨s2, d⟩ := pr
      simp only [PoolState.step, hr]
      obtain ⟨hidx, hmax, -, -, -, hcase⟩ := release_some_spec p s idx err now s2 d hr
      have herase : (s.in_use.eraseIdx idx).length = s.in_use.length - 1 :=
        List.length_eraseIdx_of_lt hidx
      have htot : s.total = s.idle.length + s.in_use.length := rfl
      refine ⟨?_, hmax⟩
      rw [hmax]
      rcases hcase with ⟨-, hall, -⟩ | ⟨-, ⟨h2, -, hall⟩, -⟩
      · have : s2.total = s.idle.length + (s.in_use.length - 1) := by
          rw [total_eq_length, hall, List.length_append, herase]
        omega
      · have : s2.total = s.idle.length + (s.in_use.length - 1) + 1 := by
          rw [total_eq_length, hall, List.length_cons, List.length_append, herase]
        omega
  | close =>
    simp only [PoolState.step, PoolState.close]
    refine ⟨?_, trivial⟩
    simp only [PoolState.total, List.length_nil] at hle ⊢
    omega

/-- Running any operation sequence keeps idle+in-use within the capacity
bound and leaves the bound unchanged. -/
theorem run_cap (p : ConnectionProvider) (ops : List PoolOp) (s : PoolState)
    (hle : s.total ≤ s.max_size) :
    (PoolState.run p s ops).total ≤ (PoolState.run p s ops).max_size
    ∧ (PoolState.run p s ops).max_size = s.max_size := by
  induction ops generalizing s with
  | nil => exact ⟨hle, rfl⟩
  | cons op ops ih =>
    obtain ⟨h1, h2⟩ := step_cap p s op hle
    obtain ⟨h3, h4⟩ := ih (s.step p op) (h2 ▸ h1)
    exact ⟨h3, by rw [PoolState.run]; rw [h4, h2]⟩

/-- With pairwise-distinct ids, every handle left after removing the lease at
`idx` has an id different from the removed handle's id. -/
theorem absent_of_get_nodup (idle l : List ConnectionHandle) (idx : Nat)
    (hidx : idx < l.length)
    (hnd : ((idle ++ l).map (fun h => h.id)).Nodup) :
    ∀ g ∈ idle ++ l.eraseIdx idx, g.id ≠ (l.get ⟨idx, hidx⟩).id := by
  have hperm : (idle ++ l).Perm (l.get ⟨idx, hidx⟩ :: (idle ++ l.eraseIdx idx)) :=
    (List.Perm.append_left idle (perm_get_cons_eraseIdx l idx hidx)).trans List.perm_middle
  have hnd2 := ((hperm.map (fun h => h.id)).nodup_iff).mp hnd
  rw [List.map_cons, List.nodup_cons] at hnd2
  intro g hg hgid
  exact hnd2.1 (hgid ▸ List.mem_map_of_mem (fun h => h.id) hg)

/-- A release that reports a caller error always closes the handle: the lease
is removed, the id is logged, and the decision is `Discard`. -/
theorem release_true_eq (p : ConnectionProvider) (s : PoolState) (idx : Nat)
    (now : Nat) (hidx : idx < s.in_use.length) :
    s.release p idx true now =
      some ({ s with
              in_use := s.in_use.eraseIdx idx,
              closed_conns := s.closed_conns ++ [(s.in_use.get ⟨idx, hidx⟩).id] },
            Decision.Discard) := by
  unfold PoolState.release
  rw [List.get?_eq_get hidx]
  simp only []
  split
  · rfl
  · rw [evaluate_poisoned_eq p _ s.recycling_method now rfl]

/-- One step preserves the id-hygiene invariant. -/
theorem step_goodIds (p : ConnectionProvider) (s : PoolState) (op : PoolOp)
    (hg : s.goodIds) : (s.step p op).goodIds := by
  obtain ⟨hlt, hnd⟩ := hg
  cases op with
  | acquire now =>
    cases hacq : s.acquire p now with
    | error e =>
      simp only [PoolState.step, hacq]
      exact ⟨hlt, hnd⟩
    | ok pr =>
      obtain ⟨h, t⟩ := pr
      simp only [PoolState.step, hacq]
      obtain ⟨-, -, -, -, hcase⟩ := acquire_ok_spec p s now h t hacq
      rcases hcase with ⟨-, hperm, hnid⟩ | ⟨hid, hall, hnid, -⟩
      · refine ⟨?_, ((hperm.map (fun g => g.id)).nodup_iff).mpr hnd⟩
        intro g hgmem
        rw [hnid]
        exact hlt g (hperm.mem_iff.mp hgmem)
      · constructor
        · intro g hgmem
          rw [hall] at hgmem
          rw [hnid]
          rcases List.mem_cons.mp hgmem with rfl | hgmem
          · rw [hid]; omega
          · have := hlt g hgmem; omega
        · rw [hall, List.map_cons, List.nodup_cons]
          refine ⟨?_, hnd⟩
          intro hmem
          obtain ⟨g, hgmem, hgid⟩ := List.mem_map.mp hmem
          have := hlt g hgmem
          rw [hid] at hgid
          omega
  | release idx err now =>
    cases hr : s.release p idx err now with
    | none =>
      simp only [PoolState.step, hr]
      exact ⟨hlt, hnd⟩
    | some pr =>
      obtain ⟨s2, d⟩ := pr
      simp only [PoolState.step, hr]
      obtain ⟨hidx, -, -, -, hnid, hcase⟩ := release_some_spec p s idx err now s2 d hr
      have hsub : (s.idle ++ s.in_use.eraseIdx idx).Sublist s.allHandles :=
        (List.eraseIdx_sublist s.in_use idx).append_left s.idle
      rcases hcase with ⟨-, hall, -⟩ | ⟨-, ⟨h2, hh2, hall⟩, -⟩
      · constructor
        · intro g hgmem
          rw [hall] at hgmem
          rw [hnid]
          exact hlt g (hsub.subset hgmem)
        · rw [hall]
          exact hnd.sublist (hsub.map (fun g => g.id))
      · constructor
        · intro g hgmem
          rw [hall] at hgmem
          rw [hnid]
          rcases List.mem_cons.mp hgmem with rfl | hgmem
          · rw [hh2]
            exact hlt _ (List.mem_append_right s.idle (List.get_mem s.in_use idx hidx))
          · exact hlt g (hsub.subset hgmem)
        · rw [hall, List.map_cons, List.nodup_cons]
          refine ⟨?_, hnd.sublist (hsub.map (fun g => g.id))⟩
          intro hmem
          obtain ⟨g, hgmem, hgid⟩ := List.mem_map.mp hmem
          rw [hh2] at hgid
          exact absent_of_get_nodup s.idle s.in_use idx hidx hnd g hgmem hgid
  | close =>
    constructor
    · intro g hgmem
      have hmem : g ∈ s.in_use := hgmem
      exact hlt g (List.mem_append_right s.idle hmem)
    · have hsub : ((s.step p PoolOp.close).allHandles).Sublist s.allHandles :=
        List.sublist_append_right s.idle s.in_use
      exact hnd.sublist (hsub.map (fun g => g.id))

/-- Running any operation sequence preserves the id-hygiene invariant. -/
theorem run_goodIds (p : ConnectionProvider) (ops : List PoolOp) (s : PoolState)
    (hg : s.goodIds) : (PoolState.run p s ops).goodIds := by
  induction ops generalizing s with
  | nil => exact hg
  | cons op ops ih => exact ih (s.step p op) (step_goodIds p s op hg)

/-- One step keeps an absent id absent and below the fresh-id counter. -/
theorem step_absent (p : ConnectionProvider) (s : PoolState) (op : PoolOp) (i : Nat)
    (habs : ∀ g ∈ s.allHandles, g.id ≠ i) (hlt : i < s.next_id) :
    (∀ g ∈ (s.step p op).allHandles, g.id ≠ i) ∧ i < (s.step p op).next_id := by
  cases op with
  | acquire now =>
    cases hacq : s.acquire p now with
    | error e =>
      simp only [PoolState.step, hacq]
      exact ⟨habs, hlt⟩
    | ok pr =>
      obtain ⟨h, t⟩ := pr
      simp only [PoolState.step, hacq]
      obtain ⟨-, -, -, -, hcase⟩ := acquire_ok_spec p s now h t hacq
      rcases hcase with ⟨-, hperm, hnid⟩ | ⟨hid, hall, hnid, -⟩
      · exact ⟨fun g hgmem => habs g (hperm.mem_iff.mp hgmem), by rw [hnid]; exact hlt⟩
      · refine ⟨?_, by rw [hnid]; omega⟩
        intro g hgmem
        rw [hall] at hgmem
        rcases List.mem_cons.mp hgmem with rfl | hgmem
        · rw [hid]; omega
        · exact habs g hgmem
  | release idx err now =>
    cases hr : s.release p idx err now with
    | none =>
      simp only [PoolState.step, hr]
      exact ⟨habs, hlt⟩
    | some pr =>
      obtain ⟨s2, d⟩ := pr
      simp only [PoolState.step, hr]
      obtain ⟨hidx, -, -, -, hnid, hcase⟩ := release_some_spec p s idx err now s2 d hr
      have hsub : (s.idle ++ s.in_use.eraseIdx idx).Sublist s.allHandles :=
        (List.eraseIdx_sublist s.in_use idx).append_left s.idle
      refine ⟨?_, by rw [hnid]; exact hlt⟩
      rcases hcase with ⟨-, hall, -⟩ | ⟨-, ⟨h2, hh2, hall⟩, -⟩
      · intro g hgmem
        rw [hall] at hgmem
        exact habs g (hsub.subset hgmem)
      · intro g hgmem
        rw [hall] at hgmem
        rcases List.mem_cons.mp hgmem with rfl | hgmem
        · rw [hh2]
          exact habs _ (List.mem_append_right s.idle (List.get_mem s.in_use idx hidx))
        · exact habs g (hsub.subset hgmem)
  | close =>
    refine ⟨?_, hlt⟩
    intro g hgmem
    have hmem : g ∈ s.in_use := hgmem
    exact habs g (List.mem_append_right s.idle hmem)

/-- One step never logs a closure of an id no live handle carries. -/
theorem step_count (p : ConnectionProvider) (s : PoolState) (op : PoolOp) (i : Nat)
    (habs : ∀ g ∈ s.allHandles, g.id ≠ i) :
    ((s.step p op).closed_conns).count i = (s.closed_conns).count i := by
  cases op with
  | acquire now =>
    cases hacq : s.acquire p now with
    | error e => simp [PoolState.step, hacq]
    | ok pr =>
      obtain ⟨h, t⟩ := pr
      simp only [PoolState.step, hacq]
      obtain ⟨-, -, -, hcc, -⟩ := acquire_ok_spec p s now h t hacq
      rw [hcc]
  | release idx err now =>
    cases hr : s.release p idx err now with
    | none => simp [PoolState.step, hr]
    | some pr =>
      obtain ⟨s2, d⟩ := pr
      simp only [PoolState.step, hr]
      obtain ⟨hidx, -, -, -, -, hcase⟩ := release_some_spec p s idx err now s2 d hr
      rcases hcase with ⟨-, -, hcc⟩ | ⟨-, -, hcc⟩
      · rw [hcc, List.count_append]
        have hne : i ∉ [(s.in_use.get ⟨idx, hidx⟩).id] := by
          intro hmem
          rw [List.mem_singleton] at hmem
          exact habs _ (List.mem_append_right s.idle (List.get_mem s.in_use idx hidx)) hmem.symm
        rw [List.count_eq_zero_of_not_mem hne]
        omega
      · rw [hcc]
  | close =>
    show (s.closed_conns ++ s.idle.map (fun h => h.id)).count i = (s.closed_conns).count i
    rw [List.count_append]
    have hz : (s.idle.map (fun h => h.id)).count i = 0 := by
      rw [List.count_eq_zero]
      intro hmem
      obtain ⟨g, hgmem, hgid⟩ := List.mem_map.mp hmem
      exact habs g (List.mem_append_left s.in_use hgmem) hgid
    rw [hz]
    omega

/-- Running any operation sequence keeps an absent id absent, below the
counter, and never logged again. -/
theorem run_absent_count (p : ConnectionProvider) (ops : List PoolOp) (s : PoolState)
    (i : Nat) (habs : ∀ g ∈ s.allHandles, g.id ≠ i) (hlt : i < s.next_id) :
    (∀ g ∈ (PoolState.run p s ops).allHandles, g.id ≠ i)
    ∧ i < (PoolState.run p s ops).next_id
    ∧ ((PoolState.run p s ops).closed_conns).count i = (s.closed_conns).count i := by
  induction ops generalizing s with
  | nil => exact ⟨habs, hlt, rfl⟩
  | cons op ops ih =>
    obtain ⟨h1, h2⟩ := step_absent p s op i habs hlt
    have h3 := step_count p s op i habs
    obtain ⟨h4, h5, h6⟩ := ih (s.step p op) h1 h2
    exact ⟨h4, h5, h6.trans h3⟩

/-- One step never reopens a closed pool. -/
theorem step_closed (p : ConnectionProvider) (s : PoolState) (op : PoolOp)
    (hc : s.closed = true) : (s.step p op).closed = true := by
  cases op with
  | acquire now => simp [PoolState.step, acquire_closed_eq p s now hc, hc]
  | release idx err now =>
    cases hr : s.release p idx err now with
    | none => simp only [PoolState.step, hr]; exact hc
    | some pr =>
      obtain ⟨s2, d⟩ := pr
      simp only [PoolState.step, hr]
      obtain ⟨-, -, -, hcl, -, -⟩ := release_some_spec p s idx err now s2 d hr
      rw [hcl]
      exact hc
  | close => rfl

/-- A closed pool stays closed under any operation sequence. -/
theorem run_closed (p : ConnectionProvider) (ops : List PoolOp) (s : PoolState)
    (hc : s.closed = true) : (PoolState.run p s ops).closed = true := by
  induction ops generalizing s with
  | nil => exact hc
  | cons op ops ih => exact ih (s.step p op) (step_closed p s op hc)

/-- Closing the pool logs each idle handle's id exactly once, and afterwards
no live handle carries such an id. -/
theorem close_count_one (s : PoolState) (i : Nat) (hg : s.goodIds)
    (hi : i ∈ s.idle.map (fun h => h.id)) (h0 : (s.closed_conns).count i = 0) :
    (((s.close).1).closed_conns).count i = 1
    ∧ (∀ g ∈ ((s.close).1).allHandles, g.id ≠ i)
    ∧ i < ((s.close).1).next_id := by
  obtain ⟨hlt, hnd⟩ := hg
  refine ⟨?_, ?_, ?_⟩
  · show (s.closed_conns ++ s.idle.map (fun h => h.id)).count i = 1
    rw [List.count_append, h0]
    have hndidle : (s.idle.map (fun h => h.id)).Nodup :=
      hnd.sublist ((List.sublist_append_left s.idle s.in_use).map (fun h => h.id))
    rw [List.count_eq_one_of_mem hndidle hi]
  · intro g hgmem hgid
    have hmem : g ∈ s.in_use := hgmem
    have hnd2 : ((s.idle.map (fun h => h.id)) ++ (s.in_use.map (fun h => h.id))).Nodup := by
      rw [← List.map_append]
      exact hnd
    exact List.disjoint_of_nodup_append hnd2 hi
      (hgid ▸ List.mem_map_of_mem (fun h => h.id) hmem)
  · obtain ⟨g, hgmem, rfl⟩ := List.mem_map.mp hi
    exact hlt g (List.mem_append_left s.in_use hgmem)

/-! ## Theorems for the claims -/

/-- C4: The default `RecyclingMethod` is `Fast`: `RecyclingMethod::default()`
returns `Fast`, `Config::new` with `recycling_method = None` stores `Fast`,
and so does `Config::new_with_con_args`. -/
theorem C4_default_recycling_fast :
    RecyclingMethod.default = RecyclingMethod.Fast
    ∧ (∀ (a : OpenConnectionArguments) (pc : Option PoolConfig),
        (Config.new a pc none).recycling_method = RecyclingMethod.Fast)
    ∧ (∀ a : OpenConnectionArguments,
        (Config.new_with_con_args a).recycling_method = RecyclingMethod.Fast) :=
  ⟨rfl, fun _ _ => rfl, fun _ => rfl⟩

/-- C5: `RecyclingMethod` has exactly the two variants `Fast` and `Verified`;
`Config::new` with `Some(m)` stores exactly `m`, and the builder hands that
very method to the manager at pool construction. -/
theorem C5_recycling_method_enum_and_stored :
    (∀ m : RecyclingMethod, m = RecyclingMethod.Fast ∨ m = RecyclingMethod.Verified)
    ∧ (∀ (a : OpenConnectionArguments) (pc : Option PoolConfig) (m : RecyclingMethod),
        (Config.new a pc (some m)).recycling_method = m)
    ∧ (∀ (a : OpenConnectionArguments) (pc : Option PoolConfig) (m : RecyclingMethod),
        ((Config.new a pc (some m)).builder).manager.recycling_method = m) := by
  refine ⟨fun m => ?_, fun _ _ _ => rfl, fun _ _ _ => rfl⟩
  cases m
  · exact Or.inl rfl
  · exact Or.inr rfl

/-- C8: the config error type is `Infallible` (uninhabited), and
`create_pool` never hits the panic path of its `expect`: building a pool
from any `Config` succeeds. -/
theorem C8_create_pool_infallible :
    IsEmpty ConfigError ∧ ∀ c : Config, (Config.create_pool c).isSome :=
  ⟨⟨fun e => nomatch e⟩, fun _ => rfl⟩

/-- C9: `builder()` applies the default `PoolConfig` when the config's
`pool_config` is `None`, and always selects the `Tokio1` runtime. -/
theorem C9_builder_default_config_and_runtime :
    (∀ c : Config, c.pool_config = none → (c.builder).config = PoolConfig.default)
    ∧ (∀ c : Config, (c.builder).runtime = some Runtime.Tokio1) := by
  constructor
  · intro c hc
    simp [Config.builder, Pool.mkBuilder, PoolBuilder.set_config, PoolBuilder.set_runtime, hc]
  · intro c
    rfl

/-- Witness for C9 at a concrete config with no pool config. -/
theorem C9_builder_default_config_and_runtime_witness :
    (Config.new_with_con_args demoArgs).pool_config = none
    ∧ ((Config.new_with_con_args demoArgs).builder).config = PoolConfig.default
    ∧ ((Config.new_with_con_args demoArgs).builder).runtime = some Runtime.Tokio1 :=
  ⟨rfl, C9_builder_default_config_and_runtime.1 (Config.new_with_con_args demoArgs) rfl,
    C9_builder_default_config_and_runtime.2 (Config.new_with_con_args demoArgs)⟩

/-- C10: the `Debug` output of `Config` depends only on `pool_config`:
configs that agree on `pool_config` format identically, however their
connection arguments (address, credentials) and recycling method differ. -/
theorem C10_debug_output_ignores_credentials (c1 c2 : Config)
    (hpc : c1.pool_config = c2.pool_config) :
    c1.debugFmt = c2.debugFmt := by
  simp [Config.debugFmt, hpc]

/-- Witness for C10: two configs with different hosts, credentials and
recycling methods but the same pool config format identically. -/
theorem C10_debug_output_ignores_credentials_witness :
    (Config.new demoArgs none (some RecyclingMethod.Fast)).pool_config
      = (Config.new demoArgs2 none (some RecyclingMethod.Verified)).pool_config
    ∧ (Config.new demoArgs none (some RecyclingMethod.Fast)).debugFmt
      = (Config.new demoArgs2 none (some RecyclingMethod.Verified)).debugFmt :=
  ⟨rfl, C10_debug_output_ignores_credentials _ _ rfl⟩

/-- C3: for a non-poisoned handle, `Fast` discards exactly when the
structural liveness check reports closed; and a handle that is structurally
open but fails the round-trip probe is discarded under `Verified` while
`Fast` alone would keep it. -/
theorem C3_fast_verified_differential (p : ConnectionProvider)
    (h : ConnectionHandle) (now : Nat) (hp : h.poisoned = false) :
    ((RecyclingPolicy.evaluate p h RecyclingMethod.Fast now).1.decision = Decision.Discard
      ↔ p.is_open h.id = false)
    ∧ (p.is_open h.id = true → p.probe h.id = false →
        (RecyclingPolicy.evaluate p h RecyclingMethod.Verified now).1.decision = Decision.Discard
        ∧ (RecyclingPolicy.evaluate p h RecyclingMethod.Fast now).1.decision = Decision.Keep) := by
  constructor
  · cases hio : p.is_open h.id <;> simp [RecyclingPolicy.evaluate, hp, hio]
  · intro hio hpr
    constructor <;> simp [RecyclingPolicy.evaluate, hp, hio, hpr]

/-- Witness for C3: a zombie connection (open locally, probe fails) is
discarded by `Verified` but kept by `Fast`. -/
theorem C3_fast_verified_differential_witness :
    demoHandle.poisoned = false
    ∧ (RecyclingPolicy.evaluate zombieProvider demoHandle RecyclingMethod.Verified 1).1.decision
        = Decision.Discard
    ∧ (RecyclingPolicy.evaluate zombieProvider demoHandle RecyclingMethod.Fast 1).1.decision
        = Decision.Keep :=
  ⟨rfl,
    ((C3_fast_verified_differential zombieProvider demoHandle 1 rfl).2 rfl rfl).1,
    ((C3_fast_verified_differential zombieProvider demoHandle 1 rfl).2 rfl rfl).2⟩

/-- C1: starting from a fresh pool, after any sequence of acquire, release
and close operations the number of idle handles plus the number of in-use
handles never exceeds the configured max size. -/
theorem C1_capacity_invariant (p : ConnectionProvider) (max_size : Nat)
    (m : RecyclingMethod) (ops : List PoolOp) :
    (PoolState.run p (PoolState.init max_size m) ops).idle.length
      + (PoolState.run p (PoolState.init max_size m) ops).in_use.length
      ≤ max_size := by
  obtain ⟨h1, h2⟩ := run_cap p ops (PoolState.init max_size m) (by
    simp [PoolState.total, PoolState.init])
  rw [h2] at h1
  exact h1

/-- C2: a poisoned handle is discarded by `evaluate` under either recycling
method without running the liveness check or the probe; and a handle released
with a caller-reported error is removed for good: no later acquire, after any
operation sequence, ever returns a handle with its id. -/
theorem C2_poisoned_discarded_never_returned (p : ConnectionProvider)
    (m : RecyclingMethod) (h : ConnectionHandle) (hp : h.poisoned = true)
    (now : Nat) (s : PoolState) (idx : Nat) (hidx : idx < s.in_use.length)
    (hgood : s.goodIds) :
    (RecyclingPolicy.evaluate p h m now).1
      = ⟨Decision.Discard, false, false⟩
    ∧ ∀ (s2 : PoolState) (d : Decision), s.release p idx true now = some (s2, d) →
        d = Decision.Discard
        ∧ ∀ (ops : List PoolOp) (now2 : Nat) (h2 : ConnectionHandle) (t : PoolState),
            (PoolState.run p s2 ops).acquire p now2 = Except.ok (h2, t) →
            h2.id ≠ (s.in_use.get ⟨idx, hidx⟩).id := by
  constructor
  · rw [evaluate_poisoned_eq p h m now hp]
  · intro s2 d hr
    rw [release_true_eq p s idx now hidx] at hr
    simp only [Option.some.injEq, Prod.mk.injEq] at hr
    obtain ⟨rfl, rfl⟩ := hr
    refine ⟨rfl, ?_⟩
    intro ops now2 h2 t hok
    have habs0 : ∀ g ∈ s.idle ++ s.in_use.eraseIdx idx,
        g.id ≠ (s.in_use.get ⟨idx, hidx⟩).id :=
      absent_of_get_nodup s.idle s.in_use idx hidx hgood.2
    have hlt0 : (s.in_use.get ⟨idx, hidx⟩).id < s.next_id :=
      hgood.1 _ (List.mem_append_right s.idle (List.get_mem s.in_use idx hidx))
    obtain ⟨habs, hlt, -⟩ := run_absent_count p ops
      { s with
        in_use := s.in_use.eraseIdx idx
        closed_conns := s.closed_conns ++ [(s.in_use.get ⟨idx, hidx⟩).id] }
      ((s.in_use.get ⟨idx, hidx⟩).id)
      (fun g hg => habs0 g hg) hlt0
    obtain ⟨-, -, -, -, hcase⟩ := acquire_ok_spec p _ now2 h2 t hok
    rcases hcase with ⟨hmem, -, -⟩ | ⟨hid, -, -, -⟩
    · exact habs h2 hmem
    · rw [hid]
      omega

/-- Witness for C2: a poisoned lease is discarded with no checks run, and
the handle acquired afterwards is a fresh one with a different id. -/
theorem C2_poisoned_discarded_never_returned_witness :
    (demoPoisonHandle.poisoned = true ∧ 0 < demoPoisonPool.in_use.length
      ∧ demoPoisonPool.goodIds)
    ∧ (RecyclingPolicy.evaluate zombieProvider demoPoisonHandle
        RecyclingMethod.Verified 5).1 = ⟨Decision.Discard, false, false⟩
    ∧ ({ id := 1, created_at := 7, last_checked_at := 7,
          poisoned := false } : ConnectionHandle).id
        ≠ (demoPoisonPool.in_use.get ⟨0, by decide⟩).id := by
  have hmain := C2_poisoned_discarded_never_returned zombieProvider
    RecyclingMethod.Verified demoPoisonHandle rfl 5 demoPoisonPool 0
    (by decide) ⟨by decide, by decide⟩
  refine ⟨⟨rfl, by decide, ⟨by decide, by decide⟩⟩, hmain.1, ?_⟩
  exact (hmain.2
    { idle := []
      in_use := []
      max_size := 2
      recycling_method := RecyclingMethod.Verified
      closed := false
      next_id := 1
      closed_conns := [0] }
    Decision.Discard rfl).2 [] 7
    { id := 1, created_at := 7, last_checked_at := 7, poisoned := false }
    { idle := []
      in_use := [{ id := 1, created_at := 7, last_checked_at := 7, poisoned := false }]
      max_size := 2
      recycling_method := RecyclingMethod.Verified
      closed := false
      next_id := 2
      closed_conns := [0] }
    rfl

/-- C6: after `close()`, the pool drains exactly its idle handles, every
later acquire (after any further operations) fails with `PoolClosed`, and
each handle idle at close time is closed exactly once. -/
theorem C6_close_drains_and_rejects (p : ConnectionProvider) (s : PoolState)
    (hgood : s.goodIds) (i : Nat) (hi : i ∈ s.idle.map (fun h => h.id))
    (h0 : (s.closed_conns).count i = 0) :
    (s.close).2 = s.idle
    ∧ ((s.close).1).idle = []
    ∧ (∀ (ops : List PoolOp) (now : Nat),
        (PoolState.run p (s.close).1 ops).acquire p now
          = Except.error AcquireError.PoolClosed)
    ∧ (∀ ops : List PoolOp,
        ((PoolState.run p (s.close).1 ops).closed_conns).count i = 1) := by
  obtain ⟨hc1, habs, hlt⟩ := close_count_one s i hgood hi h0
  refine ⟨rfl, rfl, ?_, ?_⟩
  · intro ops now
    exact acquire_closed_eq p _ now (run_closed p ops (s.close).1 rfl)
  · intro ops
    obtain ⟨-, -, hcnt⟩ := run_absent_count p ops (s.close).1 i habs hlt
    rw [hcnt, hc1]

/-- Witness for C6 on a pool with one idle handle: the drained list is the
idle set, acquire fails with `PoolClosed` after close, and the idle handle's
id is logged exactly once even after further operations. -/
theorem C6_close_drains_and_rejects_witness :
    (demoIdlePool.goodIds ∧ 0 ∈ demoIdlePool.idle.map (fun h => h.id)
      ∧ (demoIdlePool.closed_conns).count 0 = 0)
    ∧ (demoIdlePool.close).2 = demoIdlePool.idle
    ∧ ((PoolState.run zombieProvider (demoIdlePool.close).1 []).acquire
        zombieProvider 5 = Except.error AcquireError.PoolClosed)
    ∧ ((PoolState.run zombieProvider (demoIdlePool.close).1
        [PoolOp.acquire 9]).closed_conns).count 0 = 1 := by
  have hmain := C6_close_drains_and_rejects zombieProvider demoIdlePool
    ⟨by decide, by decide⟩ 0 (by decide) (by decide)
  exact ⟨⟨⟨by decide, by decide⟩, by decide, by decide⟩, hmain.1,
    hmain.2.2.1 [] 5, hmain.2.2.2 [PoolOp.acquire 9]⟩

/-- C7: recycling failures are absorbed locally: a release with a valid
lease index always succeeds (its result carries only a state and a
decision, never an error), acquire is entirely independent of the probe,
and a probe failure on a structurally open, non-poisoned handle results in
a `Discard` decision under `Verified`. -/
theorem C7_probe_failures_absorbed :
    (∀ (p : ConnectionProvider) (s : PoolState) (idx : Nat) (err : Bool) (now : Nat),
        idx < s.in_use.length → (s.release p idx err now).isSome)
    ∧ (∀ (p1 p2 : ConnectionProvider) (s : PoolState) (now : Nat),
        p1.is_open = p2.is_open → p1.create_ok = p2.create_ok →
        s.acquire p1 now = s.acquire p2 now)
    ∧ (∀ (p : ConnectionProvider) (h : ConnectionHandle) (now : Nat),
        h.poisoned = false → p.is_open h.id = true → p.probe h.id = false →
        (RecyclingPolicy.evaluate p h RecyclingMethod.Verified now).1.decision
          = Decision.Discard) := by
  refine ⟨?_, ?_, ?_⟩
  · intro p s idx err now hidx
    unfold PoolState.release
    rw [List.get?_eq_get hidx]
    simp only []
    split
    · rfl
    · split <;> rfl
  · intro p1 p2 s now hio hcr
    unfold PoolState.acquire
    rw [hcr]
  · intro p h now hp hio hpr
    simp [RecyclingPolicy.evaluate, hp, hio, hpr]

/-- Witness for C7: release of a valid lease under an all-probes-fail
provider succeeds; acquire gives the same answer whether probes fail or
succeed; and the failing probe yields a `Discard` decision. -/
theorem C7_probe_failures_absorbed_witness :
    (0 < demoLeasePool.in_use.length
      ∧ (demoLeasePool.release zombieProvider 0 false 3).isSome)
    ∧ (zombieProvider.is_open = probeOkProvider.is_open
      ∧ zombieProvider.create_ok = probeOkProvider.create_ok
      ∧ demoLeasePool.acquire zombieProvider 4 = demoLeasePool.acquire probeOkProvider 4)
    ∧ (demoHandle.poisoned = false
      ∧ zombieProvider.is_open demoHandle.id = true
      ∧ zombieProvider.probe demoHandle.id = false
      ∧ (RecyclingPolicy.evaluate zombieProvider demoHandle
          RecyclingMethod.Verified 3).1.decision = Decision.Discard) :=
  ⟨⟨by decide, C7_probe_failures_absorbed.1 zombieProvider demoLeasePool 0 false 3 (by decide)⟩,
    ⟨rfl, rfl, C7_probe_failures_absorbed.2.1 zombieProvider probeOkProvider demoLeasePool 4 rfl rfl⟩,
    ⟨rfl, rfl, rfl, C7_probe_failures_absorbed.2.2 zombieProvider demoHandle 3 rfl rfl rfl⟩⟩

end DeadpoolAmqprs
